import Mathlib

/-!
Shallow embedding of the two-pass static architecture analyzer found in
`internal/analyzer/analyzer.go` of the `sharingan` repository, together with
theorems settling the specification claims about it.

Go strings are modelled as Lean `String`; `strings.Contains`,
`strings.HasSuffix`, `strings.HasPrefix` and `strings.ToLower` are modelled by
the `go*` helpers below (identifier names in Go sources are ASCII, where the
byte-wise and character-wise views coincide).  The file-system walk performed
by `filepath.Walk` is modelled as a flat trace of walk events (`WalkEntry`):
each event carries the path and file info handed to the walk callback, the
enumeration error (if any) handed to the callback, and the parse result of the
file (`none` models a parse failure of that file).  `filepath.Rel` and
`filepath.Dir` results are modelled by the `relPath` field and `goFilepathDir`.
-/

namespace Sharingan

/-- Models `strings.HasSuffix s suf`. -/
def goEndsWith (s suf : String) : Bool :=
  suf.data.isSuffixOf s.data

/-- Models `strings.HasPrefix s pre`. -/
def goStartsWith (s pre : String) : Bool :=
  pre.data.isPrefixOf s.data

/-- Whether `sub` occurs contiguously inside `l` (substring search). -/
def charsContain (l sub : List Char) : Bool :=
  if sub.isPrefixOf l then true
  else
    match l with
    | [] => false
    | _ :: rest => charsContain rest sub

/-- Models `strings.Contains s sub`. -/
def goContains (s sub : String) : Bool :=
  charsContain s.data sub.data

/-- Models `strings.ToLower` on the ASCII identifiers the analyzer handles. -/
def goToLower (s : String) : String :=
  String.mk (s.data.map Char.toLower)

/-- Models `path/filepath.Dir` on the already-clean relative file paths the
analyzer derives from the walk (`filepath.Dir(relPath)`). -/
def goFilepathDir (p : String) : String :=
  let rev := p.data.reverse
  let tail := rev.dropWhile (fun c => c ≠ '/')
  match tail with
  | [] => "."
  | _ :: rest => if rest.isEmpty then "/" else String.mk rest.reverse

/-- `ComponentType` from `analyzer.go`. -/
inductive ComponentType where
  | handler
  | service
  | repository
  | adapter
deriving DecidableEq

/-- `Component` from `analyzer.go`. -/
structure Component where
  name : String
  type : ComponentType
  package : String
  filePath : String
  dependencies : List String
deriving DecidableEq

/-- `Architecture` from `analyzer.go`.  The Go `map[string][]string` is
modelled as an association list in which each key occurs at most once;
`mapInsert` below reproduces Go map assignment (overwrite on existing key). -/
structure Architecture where
  components : List Component
  dependencies : List (String × List String)
deriving DecidableEq

/-- The shape of a struct field's type expression, as far as
`extractTypeName` inspects it (`*ast.Ident`, `*ast.StarExpr`,
`*ast.SelectorExpr`, anything else). -/
inductive GoExpr where
  | ident (name : String)
  | star (x : GoExpr)
  | selector (sel : String)
  | other
deriving DecidableEq

/-- `*ast.StructType`: `fields = none` models a nil `Fields` list. -/
structure StructType where
  fields : Option (List GoExpr)
deriving DecidableEq

/-- An `*ast.TypeSpec` as the two passes observe it: an interface type
declaration, a struct type declaration, or any other type declaration. -/
inductive TypeSpec where
  | interfaceSpec (name : String)
  | structSpec (name : String) (structType : StructType)
  | otherSpec
deriving DecidableEq

/-- A successfully parsed Go file: its package short name (`node.Name.Name`)
and the type declarations its syntax tree contains, in `ast.Inspect` order. -/
structure GoFile where
  pkgName : String
  specs : List TypeSpec
deriving DecidableEq

/-- The `os.FileInfo` data the walk callback consults. -/
structure FileInfo where
  name : String
  isDir : Bool
deriving DecidableEq

/-- One event of the `filepath.Walk` trace: the path handed to the callback,
the `filepath.Rel(repoPath, path)` result for that path, the file info, the
enumeration error (if any) handed to the callback, and the parse result of
the file's content (`none` models `parser.ParseFile` failing; parsing is
deterministic, so both passes observe the same result). -/
structure WalkEntry where
  path : String
  relPath : String
  info : FileInfo
  err : Option String
  file : Option GoFile
deriving DecidableEq

/-- What the walk callback tells `filepath.Walk` to do next. -/
inductive WalkAction where
  | abort (msg : String)
  | skipDir
  | proceed
deriving DecidableEq

/-- `skipOrContinue` from `analyzer.go`: propagate an enumeration error,
skip well-known vendored/mock directories, otherwise continue. -/
def skipOrContinue (info : FileInfo) (err : Option String) : WalkAction :=
  match err with
  | some msg => WalkAction.abort msg
  | none =>
    if info.isDir &&
        (info.name == "vendor" || info.name == ".git" || info.name == "node_modules" ||
         info.name == "mock" || info.name == "mocks") then
      WalkAction.skipDir
    else
      WalkAction.proceed

/-- `isGoSourceFile` from `analyzer.go`. -/
def isGoSourceFile (path : String) : Bool :=
  goEndsWith path ".go" && !goEndsWith path "_test.go" &&
    !goContains path "/mock" && !goContains path "_mock"

/-- Whether `path` lies inside directory `dir` (used to drop the descendants
of a directory the callback skipped with `filepath.SkipDir`). -/
def underDir (dir path : String) : Bool :=
  goStartsWith path (dir ++ "/")

/-- The walk loop shared by both passes of `Analyze`: it applies the
callback's enumeration logic (`skipOrContinue`, `isGoSourceFile`) to the
event trace and either aborts with the first enumeration error or returns
the candidate Go source files in walk order.  `skipped` accumulates the
paths of directories skipped via `filepath.SkipDir`, whose descendants
`filepath.Walk` never visits. -/
def walkCandidatesAux : List WalkEntry → List String → Except String (List WalkEntry)
  | [], _ => Except.ok []
  | e :: rest, skipped =>
    if skipped.any (fun d => underDir d e.path) then
      walkCandidatesAux rest skipped
    else
      match skipOrContinue e.info e.err with
      | WalkAction.abort msg => Except.error msg
      | WalkAction.skipDir => walkCandidatesAux rest (e.path :: skipped)
      | WalkAction.proceed =>
        if e.info.isDir then
          walkCandidatesAux rest skipped
        else if isGoSourceFile e.path then
          match walkCandidatesAux rest skipped with
          | Except.error msg => Except.error msg
          | Except.ok tail => Except.ok (e :: tail)
        else
          walkCandidatesAux rest skipped

/-- The enumeration performed by each `filepath.Walk` call in `Analyze`. -/
def walkCandidates (entries : List WalkEntry) : Except String (List WalkEntry) :=
  walkCandidatesAux entries []

/-- Insertion into a Go `map[string]bool` used as a set (the interface
catalog and the component-name set): membership-preserving, duplicate-free. -/
def setInsert (s : List String) (n : String) : List String :=
  if s.contains n then s else s ++ [n]

/-- The `ast.Inspect` loop of `collectInterfaces`: record the name of every
interface type declaration. -/
def collectInterfacesSpecs : List TypeSpec → List String → List String
  | [], interfaces => interfaces
  | TypeSpec.interfaceSpec name :: rest, interfaces =>
    collectInterfacesSpecs rest (setInsert interfaces name)
  | TypeSpec.structSpec _ _ :: rest, interfaces => collectInterfacesSpecs rest interfaces
  | TypeSpec.otherSpec :: rest, interfaces => collectInterfacesSpecs rest interfaces

/-- `collectInterfaces` from `analyzer.go`: a file that fails to parse
contributes nothing. -/
def collectInterfacesFile (parsed : Option GoFile) (interfaces : List String) : List String :=
  match parsed with
  | none => interfaces
  | some file => collectInterfacesSpecs file.specs interfaces

/-- The first pass of `Analyze`: fold `collectInterfaces` over the candidate
files in walk order. -/
def collectAllInterfaces : List WalkEntry → List String → List String
  | [], interfaces => interfaces
  | e :: rest, interfaces => collectAllInterfaces rest (collectInterfacesFile e.file interfaces)

/-- `extractTypeName` from `analyzer.go`. -/
def extractTypeName : GoExpr → String
  | GoExpr.ident name => name
  | GoExpr.star x => extractTypeName x
  | GoExpr.selector sel => sel
  | GoExpr.other => ""

/-- `looksLikeDependency` from `analyzer.go`. -/
def looksLikeDependency (name : String) : Bool :=
  let lower := goToLower name
  ["service", "store", "repo", "repository",
   "client", "api", "adapter", "provider",
   "auth", "logger", "db", "database",
   "generative", "generator"].any (fun pat => goContains lower pat)

/-- The field loop of `extractInterfaceDependencies`: `seen` models the
`seen` map (a name is marked seen only when it is included). -/
def extractDepsLoop (interfaces : List String) : List GoExpr → List String → List String
  | [], _ => []
  | field :: rest, seen =>
    let typeName := extractTypeName field
    if typeName == "" || seen.contains typeName then
      extractDepsLoop interfaces rest seen
    else if interfaces.contains typeName || looksLikeDependency typeName then
      typeName :: extractDepsLoop interfaces rest (typeName :: seen)
    else
      extractDepsLoop interfaces rest seen

/-- `extractInterfaceDependencies` from `analyzer.go`. -/
def extractInterfaceDependencies (structType : StructType) (interfaces : List String) :
    List String :=
  match structType.fields with
  | none => []
  | some fields => extractDepsLoop interfaces fields []

/-- `shouldSkipStruct` from `analyzer.go`.  The empty-name case of the
first-character test is unreachable (the length test fires first), and the
first byte of an ASCII identifier coincides with its first character. -/
def shouldSkipStruct (name : String) : Bool :=
  let lower := goToLower name
  if goContains lower "mock" then true
  else if goEndsWith name "Request" || goEndsWith name "Response" then true
  else if goEndsWith name "Config" || goEndsWith name "Conf" ||
      goContains lower "config" || name == "Config" then true
  else if ["Options", "Params", "Data", "Info", "Result", "Error", "Context",
      "Structure", "Content", "Template", "Section", "Message", "Event", "Item",
      "Entry"].any (fun suffix => goEndsWith name suffix) then true
  else if name.length ≤ 2 && name != "DB" then true
  else
    match name.data with
    | [] => false
    | c :: _ => 'a' ≤ c && c ≤ 'z'

/-- `detectComponentTypeFromContext` from `analyzer.go`; `none` models the
empty `ComponentType` (the record is not an architectural component). -/
def detectComponentTypeFromContext (pkgPath structName : String) (deps : List String) :
    Option ComponentType :=
  let lower := goToLower pkgPath
  let nameLower := goToLower structName
  if (goContains lower "transport" || goContains lower "http" ||
      goContains lower "handler" || goContains lower "api" ||
      goContains nameLower "server" || goContains nameLower "handler") &&
      decide (0 < deps.length) then
    some ComponentType.handler
  else if !goContains lower "config" &&
      (goContains lower "persistence" || goContains lower "repository" ||
       goContains lower "repo" || goContains lower "store" ||
       structName == "DB" || goEndsWith structName "Repository" ||
       goEndsWith structName "Store") then
    some ComponentType.repository
  else if goContains lower "adapter" || goContains lower "client" ||
      goContains lower "external" || goContains lower "integration" then
    some ComponentType.adapter
  else if (goContains lower "service" || goContains lower "usecase" ||
      structName == "Service" || goEndsWith structName "Service") &&
      decide (0 < deps.length) then
    some ComponentType.service
  else if decide (2 ≤ deps.length) then
    some ComponentType.service
  else
    none

/-- The `ast.Inspect` loop of `analyzeFileForComponents`: for every struct
type declaration, apply the noise filter, extract dependencies, classify,
and emit a component when a layer matched. -/
def analyzeSpecs (pkgName pkgPath relPath : String) (interfaces : List String) :
    List TypeSpec → List Component
  | [] => []
  | TypeSpec.structSpec name structType :: rest =>
    if shouldSkipStruct name then
      analyzeSpecs pkgName pkgPath relPath interfaces rest
    else
      let deps := extractInterfaceDependencies structType interfaces
      match detectComponentTypeFromContext pkgPath name deps with
      | none => analyzeSpecs pkgName pkgPath relPath interfaces rest
      | some compType =>
        { name := name, type := compType, package := pkgName,
          filePath := relPath, dependencies := deps } ::
          analyzeSpecs pkgName pkgPath relPath interfaces rest
  | TypeSpec.interfaceSpec _ :: rest => analyzeSpecs pkgName pkgPath relPath interfaces rest
  | TypeSpec.otherSpec :: rest => analyzeSpecs pkgName pkgPath relPath interfaces rest

/-- `analyzeFileForComponents` from `analyzer.go`: a file that fails to
parse contributes no components. -/
def analyzeFileForComponents (entry : WalkEntry) (interfaces : List String) :
    List Component :=
  match entry.file with
  | none => []
  | some file =>
    analyzeSpecs file.pkgName (goFilepathDir entry.relPath) entry.relPath interfaces file.specs

/-- The second pass of `Analyze`: append each file's components in walk order. -/
def collectComponents (interfaces : List String) : List WalkEntry → List Component
  | [] => []
  | e :: rest => analyzeFileForComponents e interfaces ++ collectComponents interfaces rest

/-- The `componentNames` set built by `Analyze` before resolution. -/
def collectComponentNames : List Component → List String → List String
  | [], names => names
  | c :: rest, names => collectComponentNames rest (setInsert names c.name)

/-- Go map assignment `m[k] = v`: overwrite the existing entry for `k`, or
append a new one. -/
def mapInsert (m : List (String × List String)) (k : String) (v : List String) :
    List (String × List String) :=
  if m.any (fun entry => entry.1 == k) then
    m.map (fun entry => if entry.1 == k then (k, v) else entry)
  else
    m ++ [(k, v)]

/-- Go map lookup. -/
def mapLookup : List (String × List String) → String → Option (List String)
  | [], _ => none
  | entry :: rest, k => if entry.1 == k then some entry.2 else mapLookup rest k

/-- One component's resolution step: keep only dependency names that are
retained component names. -/
def resolveComponent (componentNames : List String) (c : Component) : Component :=
  { c with dependencies := c.dependencies.filter (fun dep => componentNames.contains dep) }

/-- The dependency-map side of the resolution loop: `arch.Dependencies[name]
= validDeps` for each component in order. -/
def buildDependencyMap : List Component → List (String × List String) →
    List (String × List String)
  | [], m => m
  | c :: rest, m => buildDependencyMap rest (mapInsert m c.name c.dependencies)

/-- The resolution post-pass of `Analyze` (the Go code performs the map
update and the map population in one loop over the component slice; name
mutation never occurs, so building the map from the resolved list is the
same). -/
def resolveArchitecture (comps : List Component) : Architecture :=
  let componentNames := collectComponentNames comps []
  let resolved := comps.map (resolveComponent componentNames)
  { components := resolved, dependencies := buildDependencyMap resolved [] }

/-- `Analyze` from `analyzer.go`, over a walk-event trace: two walks over the
same tree (the first feeding `collectInterfaces`, the second
`analyzeFileForComponents`), then dependency resolution. -/
def analyze (entries : List WalkEntry) : Except String Architecture :=
  match walkCandidates entries with
  | Except.error e => Except.error e
  | Except.ok files1 =>
    let interfaces := collectAllInterfaces files1 []
    match walkCandidates entries with
    | Except.error e => Except.error e
    | Except.ok files2 =>
      Except.ok (resolveArchitecture (collectComponents interfaces files2))

/-! ### Concrete repository traces used to settle the scenario claims -/

/-- The `package service` file of the minimal-service-graph scenario:
`PaymentClient` interface and `OrderService struct { repo OrderRepository;
client PaymentClient }`. -/
def svcOrderEntry : WalkEntry :=
  ⟨"repo/service/order.go", "service/order.go", ⟨"order.go", false⟩, none,
    some ⟨"service",
      [TypeSpec.interfaceSpec "PaymentClient",
       TypeSpec.structSpec "OrderService"
         ⟨some [GoExpr.ident "OrderRepository", GoExpr.ident "PaymentClient"]⟩]⟩⟩

/-- The `package repository` file of the minimal-service-graph scenario:
`OrderRepository struct{}`. -/
def repoOrderEntry : WalkEntry :=
  ⟨"repo/repository/order.go", "repository/order.go", ⟨"order.go", false⟩, none,
    some ⟨"repository", [TypeSpec.structSpec "OrderRepository" ⟨some []⟩]⟩⟩

/-- The walk trace of the minimal-service-graph scenario. -/
def entriesMinimal : List WalkEntry := [svcOrderEntry, repoOrderEntry]

/-- The architecture the analyzer produces on `entriesMinimal`. -/
def archMinimal : Architecture :=
  ⟨[⟨"OrderService", ComponentType.service, "service", "service/order.go",
      ["OrderRepository"]⟩,
    ⟨"OrderRepository", ComponentType.repository, "repository", "repository/order.go", []⟩],
   [("OrderService", ["OrderRepository"]), ("OrderRepository", [])]⟩

/-- A repository whose single file declares
`type UserService struct { next *UserService }` in `package service`:
the self-referential field name matches the dependency heuristic. -/
def entriesSelfLoop : List WalkEntry :=
  [⟨"repo/service/user.go", "service/user.go", ⟨"user.go", false⟩, none,
    some ⟨"service",
      [TypeSpec.structSpec "UserService" ⟨some [GoExpr.star (GoExpr.ident "UserService")]⟩]⟩⟩]

/-- The architecture the analyzer produces on `entriesSelfLoop`: the
component keeps its own name in its resolved dependency list. -/
def archSelfLoop : Architecture :=
  ⟨[⟨"UserService", ComponentType.service, "service", "service/user.go", ["UserService"]⟩],
   [("UserService", ["UserService"])]⟩

/-- `PingHandler struct{}` in `package handler` — handler-shaped name, zero
dependencies. -/
def pingEntry : WalkEntry :=
  ⟨"repo/handler/ping.go", "handler/ping.go", ⟨"ping.go", false⟩, none,
    some ⟨"handler", [TypeSpec.structSpec "PingHandler" ⟨some []⟩]⟩⟩

/-- `Orchestrator struct { a UserClient; b OrderClient }` in `package foo`. -/
def orchEntry : WalkEntry :=
  ⟨"repo/foo/orch.go", "foo/orch.go", ⟨"orch.go", false⟩, none,
    some ⟨"foo",
      [TypeSpec.structSpec "Orchestrator"
        ⟨some [GoExpr.ident "UserClient", GoExpr.ident "OrderClient"]⟩]⟩⟩

/-- A trace on which two retained components share the name `UserService`
(declared in packages `service` and `service2`) with different resolved
dependency lists. -/
def entriesDupNames : List WalkEntry :=
  [⟨"repo/service/a.go", "service/a.go", ⟨"a.go", false⟩, none,
     some ⟨"service", [TypeSpec.structSpec "UserService" ⟨some [GoExpr.ident "OrderRepository"]⟩]⟩⟩,
   ⟨"repo/service2/b.go", "service2/b.go", ⟨"b.go", false⟩, none,
     some ⟨"service2", [TypeSpec.structSpec "UserService" ⟨some [GoExpr.ident "PaymentStore"]⟩]⟩⟩,
   ⟨"repo/repository/r.go", "repository/r.go", ⟨"r.go", false⟩, none,
     some ⟨"repository", [TypeSpec.structSpec "OrderRepository" ⟨some []⟩]⟩⟩,
   ⟨"repo/store/s.go", "store/s.go", ⟨"s.go", false⟩, none,
     some ⟨"store", [TypeSpec.structSpec "PaymentStore" ⟨some []⟩]⟩⟩]

/-- The architecture the analyzer produces on `entriesDupNames`: four
components but only three dependency-map entries, the `UserService` entry
holding the second (last) `UserService`'s resolved list. -/
def archDupNames : Architecture :=
  ⟨[⟨"UserService", ComponentType.service, "service", "service/a.go", ["OrderRepository"]⟩,
    ⟨"UserService", ComponentType.service, "service2", "service2/b.go", ["PaymentStore"]⟩,
    ⟨"OrderRepository", ComponentType.repository, "repository", "repository/r.go", []⟩,
    ⟨"PaymentStore", ComponentType.repository, "store", "store/s.go", []⟩],
   [("UserService", ["PaymentStore"]), ("OrderRepository", []), ("PaymentStore", [])]⟩

/-- A walk trace whose enumeration reports an error on a directory entry. -/
def entriesAbort : List WalkEntry :=
  [⟨"repo/sub", "sub", ⟨"sub", true⟩, some "boom", none⟩, svcOrderEntry]

/-- A candidate Go file whose parse fails (in both passes). -/
def unparsableEntry : WalkEntry :=
  ⟨"repo/bad/broken.go", "bad/broken.go", ⟨"broken.go", false⟩, none, none⟩

/-- The dependency list, claim-side, of "the last component with name `n` in
discovery order": `none` when no component bears the name. -/
def lastResolvedDeps (n : String) : List Component → Option (List String)
  | [] => none
  | c :: rest =>
    match lastResolvedDeps n rest with
    | some v => some v
    | none => if c.name == n then some c.dependencies else none

/-! ### General lemmas about the embedded analyzer -/

theorem mem_setInsert {s : List String} {n x : String} :
    x ∈ setInsert s n ↔ x ∈ s ∨ x = n := by
  unfold setInsert
  by_cases h : s.contains n = true
  · rw [if_pos h]
    constructor
    · exact Or.inl
    · rintro (hx | rfl)
      · exact hx
      · exact List.elem_iff.mp h
  · rw [if_neg h]
    simp [List.mem_append]

theorem mem_collectComponentNames {x : String} :
    ∀ {comps : List Component} {acc : List String},
      x ∈ collectComponentNames comps acc ↔ x ∈ acc ∨ ∃ c ∈ comps, c.name = x := by
  intro comps
  induction comps with
  | nil => intro acc; simp [collectComponentNames]
  | cons c rest ih =>
    intro acc
    rw [collectComponentNames, ih]
    rw [mem_setInsert]
    constructor
    · rintro (⟨hx | hx⟩ | ⟨c1, hc1, hn⟩)
      · exact Or.inl hx
      · exact Or.inr ⟨c, List.mem_cons_self c rest, hx.symm⟩
      · exact Or.inr ⟨c1, List.mem_cons_of_mem c hc1, hn⟩
    · rintro (hx | ⟨c1, hc1, hn⟩)
      · exact Or.inl (Or.inl hx)
      · rcases List.mem_cons.mp hc1 with rfl | hc1'
        · exact Or.inl (Or.inr hn.symm)
        · exact Or.inr ⟨c1, hc1', hn⟩

theorem analyze_ok_shape {entries : List WalkEntry} {arch : Architecture}
    (h : analyze entries = Except.ok arch) :
    ∃ files, walkCandidates entries = Except.ok files ∧
      arch = resolveArchitecture
        (collectComponents (collectAllInterfaces files []) files) := by
  unfold analyze at h
  cases hw : walkCandidates entries with
  | error e => rw [hw] at h; exact absurd h (by simp)
  | ok files =>
    rw [hw] at h
    simp only [Except.ok.injEq] at h
    exact ⟨files, rfl, h.symm⟩

theorem resolveArchitecture_closure (comps : List Component) :
    ∀ c ∈ (resolveArchitecture comps).components, ∀ d ∈ c.dependencies,
      ∃ c2 ∈ (resolveArchitecture comps).components, c2.name = d := by
  intro c hc d hd
  unfold resolveArchitecture at hc ⊢
  obtain ⟨c0, hc0, rfl⟩ := List.mem_map.mp hc
  unfold resolveComponent at hd
  have hd' := List.mem_filter.mp hd
  have hdmem : d ∈ collectComponentNames comps [] := List.elem_iff.mp hd'.2
  rcases mem_collectComponentNames.mp hdmem with hfalse | ⟨c1, hc1, hn⟩
  · exact absurd hfalse (List.not_mem_nil d)
  · refine ⟨resolveComponent (collectComponentNames comps []) c1, ?_, hn⟩
    exact List.mem_map.mpr ⟨c1, hc1, rfl⟩

theorem mem_analyzeSpecs_not_skipped {pkgName pkgPath relPath : String}
    {interfaces : List String} :
    ∀ {specs : List TypeSpec} {c : Component},
      c ∈ analyzeSpecs pkgName pkgPath relPath interfaces specs →
      shouldSkipStruct c.name = false := by
  intro specs
  induction specs with
  | nil => intro c hc; simp [analyzeSpecs] at hc
  | cons s rest ih =>
    intro c hc
    cases s with
    | interfaceSpec n => exact ih (by simpa [analyzeSpecs] using hc)
    | otherSpec => exact ih (by simpa [analyzeSpecs] using hc)
    | structSpec name st =>
      simp only [analyzeSpecs] at hc
      by_cases hskip : shouldSkipStruct name = true
      · rw [if_pos hskip] at hc
        exact ih hc
      · rw [if_neg hskip] at hc
        split at hc
        · exact ih hc
        · rcases List.mem_cons.mp hc with hceq | hmem
          · subst hceq
            simpa using hskip
          · exact ih hmem

theorem mem_analyzeFile_not_skipped {entry : WalkEntry} {interfaces : List String}
    {c : Component} (hc : c ∈ analyzeFileForComponents entry interfaces) :
    shouldSkipStruct c.name = false := by
  unfold analyzeFileForComponents at hc
  cases hfile : entry.file with
  | none => rw [hfile] at hc; simp at hc
  | some file => rw [hfile] at hc; exact mem_analyzeSpecs_not_skipped hc

theorem mem_collectComponents_not_skipped {interfaces : List String} :
    ∀ {entries : List WalkEntry} {c : Component},
      c ∈ collectComponents interfaces entries → shouldSkipStruct c.name = false := by
  intro entries
  induction entries with
  | nil => intro c hc; simp [collectComponents] at hc
  | cons e rest ih =>
    intro c hc
    rw [collectComponents] at hc
    rcases List.mem_append.mp hc with hfile | hrest
    · exact mem_analyzeFile_not_skipped hfile
    · exact ih hrest

theorem mem_resolveArchitecture_name {comps : List Component} {c : Component}
    (hc : c ∈ (resolveArchitecture comps).components) :
    ∃ c0 ∈ comps, c.name = c0.name := by
  unfold resolveArchitecture at hc
  obtain ⟨c0, hc0, rfl⟩ := List.mem_map.mp hc
  exact ⟨c0, hc0, rfl⟩

theorem mapLookup_append (m1 m2 : List (String × List String)) (k : String) :
    mapLookup (m1 ++ m2) k =
      match mapLookup m1 k with
      | some v => some v
      | none => mapLookup m2 k := by
  induction m1 with
  | nil => rfl
  | cons e m1 ih =>
    simp only [List.cons_append, mapLookup]
    split
    · rfl
    · exact ih

theorem mapLookup_eq_none_of_not_any (m : List (String × List String)) (k : String)
    (h : m.any (fun e => e.1 == k) = false) : mapLookup m k = none := by
  induction m with
  | nil => rfl
  | cons e m ih =>
    simp only [List.any_cons, Bool.or_eq_false_iff] at h
    simp only [mapLookup, h.1]
    simpa using ih h.2

theorem mapLookup_replace_self (m : List (String × List String)) (k : String)
    (v : List String) (h : m.any (fun e => e.1 == k) = true) :
    mapLookup (m.map (fun e => if e.1 == k then (k, v) else e)) k = some v := by
  induction m with
  | nil => simp at h
  | cons e m ih =>
    simp only [List.map_cons]
    by_cases he : (e.1 == k) = true
    · rw [if_pos he]
      simp [mapLookup]
    · rw [if_neg he]
      simp only [mapLookup, he]
      simp only [List.any_cons, he, Bool.false_or] at h
      simpa using ih h

theorem mapLookup_replace_other (m : List (String × List String)) (k : String)
    (v : List String) (n : String) (h : (k == n) = false) :
    mapLookup (m.map (fun e => if e.1 == k then (k, v) else e)) n = mapLookup m n := by
  induction m with
  | nil => rfl
  | cons e m ih =>
    simp only [List.map_cons]
    by_cases he : (e.1 == k) = true
    · have he' : e.1 = k := beq_iff_eq.mp he
      rw [if_pos he]
      simp only [mapLookup, h, he']
      simpa using ih
    · rw [if_neg he]
      simp only [mapLookup]
      by_cases hn : (e.1 == n) = true
      · rw [if_pos hn, if_pos hn]
      · rw [if_neg hn, if_neg hn]
        exact ih

theorem mapLookup_mapInsert (m : List (String × List String)) (k : String)
    (v : List String) (n : String) :
    mapLookup (mapInsert m k v) n = if k == n then some v else mapLookup m n := by
  unfold mapInsert
  by_cases hany : (m.any (fun e => e.1 == k)) = true
  · rw [if_pos hany]
    by_cases hk : (k == n) = true
    · have hkn : k = n := beq_iff_eq.mp hk
      subst hkn
      rw [if_pos hk]
      exact mapLookup_replace_self m k v hany
    · rw [if_neg hk]
      exact mapLookup_replace_other m k v n (by
        simp only [Bool.not_eq_true] at hk
        exact hk)
  · rw [if_neg hany]
    rw [mapLookup_append]
    have hnone := mapLookup_eq_none_of_not_any m k (by
      simp only [Bool.not_eq_true] at hany
      exact hany)
    by_cases hk : (k == n) = true
    · have hkn : k = n := beq_iff_eq.mp hk
      subst hkn
      rw [hnone, if_pos hk]
      simp [mapLookup]
    · rw [if_neg hk]
      cases hm : mapLookup m n with
      | some v2 => simp
      | none => simp [mapLookup, hk]

theorem buildDependencyMap_lookup (comps : List Component) :
    ∀ (m : List (String × List String)) (n : String),
      mapLookup (buildDependencyMap comps m) n =
        match lastResolvedDeps n comps with
        | some v => some v
        | none => mapLookup m n := by
  induction comps with
  | nil => intro m n; rfl
  | cons c rest ih =>
    intro m n
    simp only [buildDependencyMap, lastResolvedDeps]
    rw [ih]
    cases hl : lastResolvedDeps n rest with
    | some v => rfl
    | none =>
      rw [mapLookup_mapInsert]
      by_cases hc : (c.name == n) = true
      · rw [if_pos hc]
        simp [hc]
      · rw [if_neg hc]
        simp [hc]

theorem keys_mapInsert (m : List (String × List String)) (k : String) (v : List String) :
    (mapInsert m k v).map Prod.fst =
      if m.any (fun e => e.1 == k) then m.map Prod.fst else m.map Prod.fst ++ [k] := by
  unfold mapInsert
  by_cases hany : m.any (fun e => e.1 == k) = true
  · rw [if_pos hany, if_pos hany, List.map_map]
    apply List.map_congr_left
    intro e he
    by_cases hek : (e.1 == k) = true
    · simp [hek, (beq_iff_eq.mp hek).symm]
    · have hne : e.1 ≠ k := by simpa using hek
      simp [hne]
  · rw [if_neg hany, if_neg hany, List.map_append]
    rfl

theorem nodup_keys_mapInsert (m : List (String × List String)) (k : String)
    (v : List String) (h : (m.map Prod.fst).Nodup) :
    ((mapInsert m k v).map Prod.fst).Nodup := by
  rw [keys_mapInsert]
  by_cases hany : m.any (fun e => e.1 == k) = true
  · rw [if_pos hany]; exact h
  · rw [if_neg hany]
    rw [List.nodup_append]
    refine ⟨h, List.nodup_singleton _, ?_⟩
    intro x hx hk2
    rw [List.mem_singleton] at hk2
    subst hk2
    obtain ⟨e, he, hfst⟩ := List.mem_map.mp hx
    exact hany (List.any_eq_true.mpr ⟨e, he, by simp [hfst]⟩)

theorem nodup_keys_buildDependencyMap :
    ∀ (comps : List Component) (m : List (String × List String)),
      (m.map Prod.fst).Nodup → ((buildDependencyMap comps m).map Prod.fst).Nodup := by
  intro comps
  induction comps with
  | nil => intro m h; exact h
  | cons c rest ih =>
    intro m h
    exact ih _ (nodup_keys_mapInsert m c.name c.dependencies h)

/-! ### Scenario theorems -/

/-- C4: on the minimal service graph, `Analyze` returns exactly the two
components `OrderService` (Service) and `OrderRepository` (Repository); the
pre-resolution dependency list of `OrderService` is
`[OrderRepository, PaymentClient]`, and after resolution `PaymentClient` is
dropped, leaving `[OrderRepository]`. -/
theorem analyze_minimal_service_graph :
    analyze entriesMinimal = Except.ok archMinimal ∧
    analyzeFileForComponents svcOrderEntry ["PaymentClient"] =
      [⟨"OrderService", ComponentType.service, "service", "service/order.go",
        ["OrderRepository", "PaymentClient"]⟩] ∧
    archMinimal.components.length = 2 ∧
    archMinimal =
      ⟨[⟨"OrderService", ComponentType.service, "service", "service/order.go",
          ["OrderRepository"]⟩,
        ⟨"OrderRepository", ComponentType.repository, "repository", "repository/order.go",
          []⟩],
       [("OrderService", ["OrderRepository"]), ("OrderRepository", [])]⟩ :=
  ⟨rfl, rfl, rfl, rfl⟩

/-- C6: `PingHandler` in package `handler` with no fields is not emitted:
the Handler rule requires at least one extracted dependency and no later
rule matches, so the classification is empty and the file yields no
components regardless of the interface catalog. -/
theorem pingHandler_not_emitted :
    detectComponentTypeFromContext "handler" "PingHandler" [] = none ∧
    shouldSkipStruct "PingHandler" = false ∧
    ∀ interfaces : List String, analyzeFileForComponents pingEntry interfaces = [] :=
  ⟨rfl, rfl, fun _ => rfl⟩

/-- Witness for C6: the `PingHandler` file yields no components under a
concrete non-empty interface catalog. -/
theorem pingHandler_not_emitted_witness :
    analyzeFileForComponents pingEntry ["PaymentClient"] = [] :=
  pingHandler_not_emitted.2.2 ["PaymentClient"]

/-- C7: `Orchestrator` in package `foo` with fields of types `UserClient`
and `OrderClient` is classified Service by the fallback (≥ 2 dependencies)
rule, although neither its name nor its package matches the Handler,
Repository, Adapter or named-Service rules. -/
theorem orchestrator_fallback_service :
    detectComponentTypeFromContext "foo" "Orchestrator" ["UserClient", "OrderClient"] =
      some ComponentType.service ∧
    extractInterfaceDependencies
        ⟨some [GoExpr.ident "UserClient", GoExpr.ident "OrderClient"]⟩ [] =
      ["UserClient", "OrderClient"] ∧
    looksLikeDependency "UserClient" = true ∧
    looksLikeDependency "OrderClient" = true ∧
    analyzeFileForComponents orchEntry [] =
      [⟨"Orchestrator", ComponentType.service, "foo", "foo/orch.go",
        ["UserClient", "OrderClient"]⟩] ∧
    goContains (goToLower "foo") "service" = false ∧
    goContains (goToLower "foo") "usecase" = false ∧
    goEndsWith "Orchestrator" "Service" = false :=
  ⟨rfl, rfl, rfl, rfl, rfl, by decide, by decide, by decide⟩

/-- C5, counterexample: a package path containing `repository` (and not
`config`) does not always yield Repository — `api/repository` also contains
`api`, so the Handler rule, which is evaluated first, classifies a
`UserService` record with one dependency as Handler. -/
theorem userService_api_repository_is_handler :
    goContains (goToLower "api/repository") "repository" = true ∧
    goContains (goToLower "api/repository") "config" = false ∧
    detectComponentTypeFromContext "api/repository" "UserService" ["UserClient"] =
      some ComponentType.handler ∧
    detectComponentTypeFromContext "api/repository" "UserService" ["UserClient"] ≠
      some ComponentType.repository := by
  refine ⟨by decide, by decide, rfl, by decide⟩

/-- C1, counterexample: a `UserService` record in `package service` with a
`*UserService` field keeps its own name in its resolved dependency list —
the resolution set contains the component's own name — so no *other*
component carries that dependency name. -/
theorem analyze_self_dependency_kept :
    analyze entriesSelfLoop = Except.ok archSelfLoop ∧
    ∃ c ∈ archSelfLoop.components, ∃ d ∈ c.dependencies,
      ¬ ∃ c2 ∈ archSelfLoop.components, c2 ≠ c ∧ c2.name = d :=
  ⟨rfl, by decide⟩

/-- The resolved `OrderService` component of the minimal service graph. -/
def compOrderServiceRes : Component :=
  ⟨"OrderService", ComponentType.service, "service", "service/order.go", ["OrderRepository"]⟩

/-- The retained `UserService` component of the self-loop repository. -/
def compUserServiceSelf : Component :=
  ⟨"UserService", ComponentType.service, "service", "service/user.go", ["UserService"]⟩

/-- C1 (amended): after resolution, every name in a component's dependency
list is the name of some retained component, *not necessarily a different
one* — resolution tests membership in the full component-name set, which
includes the component's own name, so a self-referential dependency is
kept. -/
theorem analyze_resolved_dep_has_component :
    ∀ (entries : List WalkEntry) (arch : Architecture),
      analyze entries = Except.ok arch →
      ∀ c ∈ arch.components, ∀ d ∈ c.dependencies,
        ∃ c2 ∈ arch.components, c2.name = d := by
  intro entries arch h c hc d hd
  obtain ⟨files, -, rfl⟩ := analyze_ok_shape h
  exact resolveArchitecture_closure _ c hc d hd

/-- Witness for C1 (amended) at the self-loop repository: the dependency
`UserService` is some retained component's name (the component itself). -/
theorem analyze_resolved_dep_has_component_witness :
    ∃ c2 ∈ archSelfLoop.components, c2.name = "UserService" :=
  analyze_resolved_dep_has_component entriesSelfLoop archSelfLoop rfl
    compUserServiceSelf (by decide) "UserService" (by decide)

/-- C2: `Analyze` returns an error exactly when the source-tree enumeration
reports one; a candidate file that fails to parse contributes zero interface
names and zero components and surfaces no error. -/
theorem analyze_error_iff_enumeration_fails :
    ∀ (entries : List WalkEntry) (msg : String),
      (analyze entries = Except.error msg ↔ walkCandidates entries = Except.error msg) ∧
      ∀ (e : WalkEntry) (interfaces acc : List String), e.file = none →
        analyzeFileForComponents e interfaces = [] ∧
        collectInterfacesFile e.file acc = acc := by
  intro entries msg
  constructor
  · constructor
    · intro h
      unfold analyze at h
      cases hw : walkCandidates entries with
      | error e2 =>
        rw [hw] at h
        simp only [Except.error.injEq] at h
        rw [h]
      | ok files =>
        rw [hw] at h
        exact absurd h (by simp)
    · intro h
      unfold analyze
      rw [h]
  · intro e interfaces acc hnone
    constructor
    · unfold analyzeFileForComponents
      rw [hnone]
    · rw [hnone]
      rfl

/-- Witness for C2: an enumeration error on a directory entry aborts the
whole call with that error, and an unparsable candidate file contributes no
components. -/
theorem analyze_error_iff_enumeration_fails_witness :
    analyze entriesAbort = Except.error "boom" ∧
    analyzeFileForComponents unparsableEntry [] = [] := by
  have h := analyze_error_iff_enumeration_fails entriesAbort "boom"
  exact ⟨h.1.mpr rfl, (h.2 unparsableEntry [] [] rfl).1⟩

/-- C3: dependency closure — every name in a resolved dependency list is
the name of some component of the same Architecture. -/
theorem analyze_dependency_closure :
    ∀ (entries : List WalkEntry) (arch : Architecture),
      analyze entries = Except.ok arch →
      ∀ c ∈ arch.components, ∀ d ∈ c.dependencies,
        ∃ c2 ∈ arch.components, c2.name = d := by
  intro entries arch h c hc d hd
  obtain ⟨files, -, rfl⟩ := analyze_ok_shape h
  exact resolveArchitecture_closure _ c hc d hd

/-- Witness for C3 at the minimal service graph: `OrderService`'s resolved
dependency `OrderRepository` is a component name. -/
theorem analyze_dependency_closure_witness :
    ∃ c2 ∈ archMinimal.components, c2.name = "OrderRepository" :=
  analyze_dependency_closure entriesMinimal archMinimal rfl
    compOrderServiceRes (by decide) "OrderRepository" (by decide)

/-- C5 (amended): a `UserService` record in a package path containing
`repository` and not `config` is classified Repository — provided the
Handler rule, which is evaluated first, does not fire (its package-path
keywords are absent, or the record has no extracted dependency; the name
`UserService` itself never triggers the Handler name test). -/
theorem userService_repository_priority :
    ∀ (pkgPath : String) (deps : List String),
      goContains (goToLower pkgPath) "repository" = true →
      goContains (goToLower pkgPath) "config" = false →
      ((goContains (goToLower pkgPath) "transport" ||
        goContains (goToLower pkgPath) "http" ||
        goContains (goToLower pkgPath) "handler" ||
        goContains (goToLower pkgPath) "api") = false ∨ deps = []) →
      detectComponentTypeFromContext pkgPath "UserService" deps =
        some ComponentType.repository := by
  intro pkgPath deps hrepo hconf hhandler
  have hs : goContains (goToLower "UserService") "server" = false := by decide
  have hh : goContains (goToLower "UserService") "handler" = false := by decide
  unfold detectComponentTypeFromContext
  rcases hhandler with hfirst | hdeps
  · simp only [Bool.or_eq_false_iff] at hfirst
    obtain ⟨⟨⟨ht, hht⟩, hhd⟩, hap⟩ := hfirst
    simp [ht, hht, hhd, hap, hs, hh, hconf, hrepo]
  · subst hdeps
    simp [hs, hh, hconf, hrepo]

/-- Witness for C5 (amended): in package path `repository` a `UserService`
record with one dependency is classified Repository. -/
theorem userService_repository_priority_witness :
    detectComponentTypeFromContext "repository" "UserService" ["UserClient"] =
      some ComponentType.repository :=
  userService_repository_priority "repository" ["UserClient"] (by decide) (by decide)
    (Or.inl (by decide))

/-- C8: noise exclusion — no component of any analysis result is named
`UserMock`, `CreateUserRequest`, `AppConfig` or `internalHelper`: every
emitted component passed the noise filter, which rejects all four names. -/
theorem analyze_noise_excluded :
    ∀ (entries : List WalkEntry) (arch : Architecture),
      analyze entries = Except.ok arch →
      ∀ c ∈ arch.components,
        c.name ≠ "UserMock" ∧ c.name ≠ "CreateUserRequest" ∧
        c.name ≠ "AppConfig" ∧ c.name ≠ "internalHelper" := by
  intro entries arch h c hc
  obtain ⟨files, -, rfl⟩ := analyze_ok_shape h
  obtain ⟨c0, hc0, hname⟩ := mem_resolveArchitecture_name hc
  have hskip : shouldSkipStruct c.name = false := by
    rw [hname]
    exact mem_collectComponents_not_skipped hc0
  refine ⟨?_, ?_, ?_, ?_⟩ <;> intro heq <;> rw [heq] at hskip <;>
    exact absurd hskip (by decide)

/-- Witness for C8 at the minimal service graph, applied to the retained
`OrderService` component. -/
theorem analyze_noise_excluded_witness :
    compOrderServiceRes.name ≠ "UserMock" ∧
    compOrderServiceRes.name ≠ "CreateUserRequest" ∧
    compOrderServiceRes.name ≠ "AppConfig" ∧
    compOrderServiceRes.name ≠ "internalHelper" :=
  analyze_noise_excluded entriesMinimal archMinimal rfl compOrderServiceRes (by decide)

/-- C9: determinism — the embedded `Analyze` is a pure function of the
repository trace, so two calls on the same unchanged input yield component
lists equal up to order (they are in fact equal) and identical dependency
maps. -/
theorem analyze_deterministic :
    ∀ (entries : List WalkEntry) (a1 a2 : Architecture),
      analyze entries = Except.ok a1 → analyze entries = Except.ok a2 →
      a1.components.Perm a2.components ∧ a1.dependencies = a2.dependencies := by
  intro entries a1 a2 h1 h2
  rw [h1] at h2
  cases h2
  exact ⟨List.Perm.refl _, rfl⟩

/-- Witness for C9 at the minimal service graph. -/
theorem analyze_deterministic_witness :
    archMinimal.components.Perm archMinimal.components ∧
    archMinimal.dependencies = archMinimal.dependencies :=
  analyze_deterministic entriesMinimal archMinimal archMinimal rfl rfl

/-- C10: the dependency map holds one entry per component name (its keys
are duplicate-free), that entry's value is the resolved dependency list of
the last component with that name in discovery order, and — since the
component list retains every duplicate — the map can have strictly fewer
entries than there are components, as the concrete duplicate-name trace
shows. -/
theorem analyze_dependency_map_last_wins :
    (∀ (entries : List WalkEntry) (arch : Architecture),
        analyze entries = Except.ok arch →
        (arch.dependencies.map Prod.fst).Nodup ∧
        ∀ n, mapLookup arch.dependencies n = lastResolvedDeps n arch.components) ∧
    (analyze entriesDupNames = Except.ok archDupNames ∧
     archDupNames.components.length = 4 ∧
     archDupNames.dependencies.length = 3 ∧
     (archDupNames.components.filter (fun c => c.name == "UserService")).length = 2 ∧
     mapLookup archDupNames.dependencies "UserService" = some ["PaymentStore"]) := by
  constructor
  · intro entries arch h
    obtain ⟨files, -, rfl⟩ := analyze_ok_shape h
    unfold resolveArchitecture
    constructor
    · exact nodup_keys_buildDependencyMap _ [] (by simp)
    · intro n
      rw [buildDependencyMap_lookup]
      cases hl : lastResolvedDeps n
          ((collectComponents (collectAllInterfaces files []) files).map
            (resolveComponent (collectComponentNames
              (collectComponents (collectAllInterfaces files []) files) []))) with
      | some v => rfl
      | none => rfl
  · exact ⟨rfl, rfl, rfl, rfl, rfl⟩

/-- Witness for C10 at the duplicate-name trace: key set duplicate-free and
last-wins lookup for `UserService`. -/
theorem analyze_dependency_map_last_wins_witness :
    (archDupNames.dependencies.map Prod.fst).Nodup ∧
    mapLookup archDupNames.dependencies "UserService" =
      lastResolvedDeps "UserService" archDupNames.components := by
  have h := analyze_dependency_map_last_wins.1 entriesDupNames archDupNames rfl
  exact ⟨h.1, h.2 "UserService"⟩

end Sharingan
